import Mathlib

/-!
Verification development for the GigaLearnCPP / RLGymCPP reinforcement-learning core.

Shallow embedding conventions:
* C++ `float` arithmetic is modelled over `ℚ` (exact field arithmetic);
* fixed-size dense tables become `List`s of rows;
* a fatal error (`RG_ERR_CLOSE`, failed `RG_ASSERT`) becomes `Option`/`Except` failure;
* the `int8_t` terminal tags `NOT_TERMINAL = 0 / NORMAL = 1 / TRUNCATED = 2` become
  the inductive `TerminalType`.
-/

set_option maxHeartbeats 1000000
set_option linter.unusedVariables false

/-- The terminal tag stored per arena step (RLGymCPP `TerminalType`):
`NOT_TERMINAL = 0`, `NORMAL = 1`, `TRUNCATED = 2`. -/
inductive TerminalType where
  | notTerminal : TerminalType
  | normal : TerminalType
  | truncated : TerminalType
deriving DecidableEq, Repr

/-- One iteration of the terminal-condition loop of
`RLGC::EnvSet::StepSecondHalf` (EnvSet.cpp lines 169-179): `cond` is the pair
`(IsTerminal result, IsTruncation result)` of one terminal condition. -/
def terminalConditionStep (terminalType : TerminalType) (cond : Bool × Bool) :
    TerminalType :=
  if cond.1 then
    let curTerminalType :=
      if cond.2 then TerminalType.truncated else TerminalType.normal
    if terminalType = TerminalType.notTerminal then curTerminalType
    else if curTerminalType = TerminalType.normal then curTerminalType
    else terminalType
  else terminalType

/-- The terminal-condition evaluation loop of `RLGC::EnvSet::StepSecondHalf`
(EnvSet.cpp lines 167-180), starting from `NOT_TERMINAL`. -/
def evalTerminalConditions (conds : List (Bool × Bool)) : TerminalType :=
  conds.foldl terminalConditionStep TerminalType.notTerminal

/-- Closed form of the terminal-precedence rule as the spec states it, used to
state claim C3. -/
def terminalPrecedenceSpec (conds : List (Bool × Bool)) : TerminalType :=
  if conds.any (fun cond => cond.1 && !cond.2) then TerminalType.normal
  else if conds.any (fun cond => cond.1) then TerminalType.truncated
  else TerminalType.notTerminal

theorem evalTerminalConditions_foldl_aux (conds : List (Bool × Bool)) :
    ∀ acc : TerminalType,
      conds.foldl terminalConditionStep acc =
      (if conds.any (fun cond => cond.1 && !cond.2) then TerminalType.normal
       else match acc with
        | TerminalType.normal => TerminalType.normal
        | TerminalType.truncated => TerminalType.truncated
        | TerminalType.notTerminal =>
          if conds.any (fun cond => cond.1) then TerminalType.truncated
          else TerminalType.notTerminal) := by
  induction conds with
  | nil => intro acc; cases acc <;> simp
  | cons c rest ih =>
    intro acc
    rcases c with ⟨fired, isTrunc⟩
    rw [List.foldl_cons, ih]
    by_cases h1 : rest.any (fun cond => cond.1 && !cond.2) = true <;>
      by_cases h2 : rest.any (fun cond => cond.1) = true <;>
        cases fired <;> cases isTrunc <;> cases acc <;>
          simp [h1, h2, terminalConditionStep]

/-- ZeroSumReward (ZeroSumReward.cpp).  `teams` gives each player's team flag
(`false` = team 0, `true` = team 1) in player order; `raw` is the child
reward's per-player output.  Mirrors the two passes of `GetAllRewards`:
team sums/counts, then the per-player transformation with guarded averages. -/
def zeroSumGetAllRewards (teams : List Bool) (raw : List ℚ)
    (teamSpirit opponentScale : ℚ) : List ℚ :=
  let pairs := teams.zip raw
  let count0 := (pairs.filter (fun p => !p.1)).length
  let count1 := (pairs.filter (fun p => p.1)).length
  let sum0 := ((pairs.filter (fun p => !p.1)).map (fun p => p.2)).sum
  let sum1 := ((pairs.filter (fun p => p.1)).map (fun p => p.2)).sum
  let avgTeam0 := if 0 < count0 then sum0 / count0 else 0
  let avgTeam1 := if 0 < count1 then sum1 / count1 else 0
  let selfCoef := 1 - teamSpirit
  pairs.map (fun p =>
    let avgTeamReward := if p.1 then avgTeam1 else avgTeam0
    let avgOpponentReward := if p.1 then avgTeam0 else avgTeam1
    p.2 * selfCoef + avgTeamReward * teamSpirit - avgOpponentReward * opponentScale)

/-- Average raw reward of one team, with the code's empty-team guard
(`0` when the team has no players). -/
def teamAvgReward (teams : List Bool) (raw : List ℚ) (team : Bool) : ℚ :=
  let pairs := teams.zip raw
  let members := pairs.filter (fun p => p.1 = team)
  if 0 < members.length then ((members.map (fun p => p.2)).sum) / members.length
  else 0

theorem getD_map_of_lt {α β : Type} (f : α → β) (l : List α) (i : ℕ)
    (d0 : β) (d : α) (hi : i < l.length) :
    (l.map f).getD i d0 = f (l.getD i d) := by
  simp [List.getD_eq_getElem?_getD, List.getElem?_eq_getElem hi]

theorem getD_zip_of_lt {α β : Type} (l1 : List α) (l2 : List β) (i : ℕ)
    (d1 : α) (d2 : β) (h1 : i < l1.length) (h2 : i < l2.length) :
    (l1.zip l2).getD i (d1, d2) = (l1.getD i d1, l2.getD i d2) := by
  induction l1 generalizing l2 i with
  | nil => simp at h1
  | cons a l ih =>
    cases l2 with
    | nil => simp at h2
    | cons b l2t =>
      cases i with
      | zero => simp [List.zip_cons_cons]
      | succ j =>
        simp only [List.zip_cons_cons, List.getD_cons_succ]
        exact ih l2t j (by simpa using h1) (by simpa using h2)

/-- C3: for every arena and every sequence of terminal-condition results
evaluated during `StepSecondHalf`, the stored terminal type obeys the spec's
precedence: any firing non-truncation gives `NORMAL` (overriding any earlier
`TRUNCATED`), only firing truncations give `TRUNCATED` (the first-seen
truncated result, and a later truncation never overrides `NORMAL`), and no
firing condition gives `NOT_TERMINAL`. -/
theorem claim_C3_terminal_precedence (conds : List (Bool × Bool)) :
    evalTerminalConditions conds = terminalPrecedenceSpec conds := by
  rw [evalTerminalConditions, evalTerminalConditions_foldl_aux conds
    TerminalType.notTerminal, terminalPrecedenceSpec]

theorem zeroSum_filter_false (pairs : List (Bool × ℚ)) :
    pairs.filter (fun p => decide (p.1 = false)) = pairs.filter (fun p => !p.1) := by
  apply List.filter_congr
  intro p _
  cases hp : p.1 <;> simp [hp]

theorem zeroSum_filter_true (pairs : List (Bool × ℚ)) :
    pairs.filter (fun p => decide (p.1 = true)) = pairs.filter (fun p => p.1) := by
  apply List.filter_congr
  intro p _
  cases hp : p.1 <;> simp [hp]

/-- C8: with `teamSpirit = 0, opponentScale = 1` the zero-sum wrapper returns
`raw[i] - avgOpponentReward`, and with `teamSpirit = 1` it returns
`avgTeamReward - avgOpponentReward`, where the team averages use the code's
empty-team guard. -/
theorem claim_C8_zero_sum_reward (teams : List Bool) (raw : List ℚ)
    (hlen : teams.length = raw.length) :
    (∀ i, i < raw.length →
      (zeroSumGetAllRewards teams raw 0 1).getD i 0 =
        raw.getD i 0 - teamAvgReward teams raw (!(teams.getD i false))) ∧
    (∀ i, i < raw.length →
      (zeroSumGetAllRewards teams raw 1 1).getD i 0 =
        teamAvgReward teams raw (teams.getD i false) -
          teamAvgReward teams raw (!(teams.getD i false))) := by
  have hpl : (teams.zip raw).length = raw.length := by
    simp [List.length_zip, hlen]
  have hmain : ∀ ts os : ℚ, ∀ i, i < raw.length →
      (zeroSumGetAllRewards teams raw ts os).getD i 0 =
        raw.getD i 0 * (1 - ts) +
          teamAvgReward teams raw (teams.getD i false) * ts -
          teamAvgReward teams raw (!(teams.getD i false)) * os := by
    intro ts os i hi
    have hip : i < (teams.zip raw).length := by rw [hpl]; exact hi
    rw [zeroSumGetAllRewards]
    rw [getD_map_of_lt _ _ _ _ (false, 0) hip]
    rw [getD_zip_of_lt teams raw i false 0 (by rw [hlen]; exact hi) hi]
    rw [teamAvgReward, teamAvgReward]
    simp only [zeroSum_filter_false, zeroSum_filter_true]
    cases ht : teams.getD i false <;> simp [ht]
  constructor
  · intro i hi
    rw [hmain 0 1 i hi]
    ring
  · intro i hi
    rw [hmain 1 1 i hi]
    ring

theorem claim_C8_zero_sum_reward_witness :
    ([false, true] : List Bool).length = ([2, 4] : List ℚ).length ∧
    ((∀ i, i < ([2, 4] : List ℚ).length →
      (zeroSumGetAllRewards [false, true] [2, 4] 0 1).getD i 0 =
        ([2, 4] : List ℚ).getD i 0 -
          teamAvgReward [false, true] [2, 4] (!([false, true].getD i false))) ∧
     (∀ i, i < ([2, 4] : List ℚ).length →
      (zeroSumGetAllRewards [false, true] [2, 4] 1 1).getD i 0 =
        teamAvgReward [false, true] [2, 4] ([false, true].getD i false) -
          teamAvgReward [false, true] [2, 4] (!([false, true].getD i false)))) :=
  ⟨rfl, claim_C8_zero_sum_reward [false, true] [2, 4] rfl⟩

/-- The list of step indices with a `TRUNCATED` terminal, in step order
(GAE.cpp pass 1, lines 67-72: `truncStepIndices`). -/
def truncStepIndices (terminals : List TerminalType) : List ℕ :=
  (List.range terminals.length).filter
    (fun i => decide (terminals.getD i TerminalType.notTerminal = TerminalType.truncated))

/-- Modelled from the spec: `RS_CLAMP` is defined in a RocketSim framework
header outside `src/`; per the spec (4.4) the normalized reward is
"clamped to [-clipRange, clipRange]". -/
def rsClamp (v lo hi : ℚ) : ℚ := max (min v hi) lo

/-- The `notDoneNotTruncs` entry of GAE.cpp pass 2 (lines 79-82):
`(1 - done) * (1 - trunc)` with the two indicator values. -/
def notDoneNotTruncVal (t : TerminalType) : ℚ :=
  (1 - if t = TerminalType.normal then (1 : ℚ) else 0) *
    (1 - if t = TerminalType.truncated then (1 : ℚ) else 0)

/-- The `nextValPreds` entry of GAE.cpp pass 2 (lines 84-101).  `n` is
`numReturns`; the truncated case does the code's linear search of
`truncStepIndices` and falls back to `0` when the found index is out of
range of `truncValPreds`. -/
def nextValPred (n : ℕ) (terminals : List TerminalType) (valPreds : List ℚ)
    (truncValPreds : Option (List ℚ)) (step : ℕ) : ℚ :=
  let t := terminals.getD step TerminalType.notTerminal
  if t = TerminalType.normal then 0
  else if t = TerminalType.truncated ∧ truncValPreds.isSome then
    let tis := truncStepIndices terminals
    let numTruncs := (truncValPreds.getD []).length
    let tidx := tis.findIdx (fun j => decide (j = step))
    if tidx < tis.length ∧ tidx < numTruncs then (truncValPreds.getD []).getD tidx 0
    else 0
  else if step < n - 1 then valPreds.getD (step + 1) 0
  else 0

/-- Per-step data consumed by the backward GAE loop (GAE.cpp pass 4). -/
structure GAEStepData where
  rewUsed : ℚ
  rawRew : ℚ
  nextVal : ℚ
  ndnt : ℚ
  valPred : ℚ
deriving DecidableEq, Repr

/-- The strictly sequential backward loop of GAE.cpp (lines 169-193), written
as structural recursion from the front: the head is step `s` and the
recursive result carries `advantage[s+1] / return[s+1]` (`prevLambda` and
`prevRet` of the code, `0` past the last step). -/
def gaeBackwardLoop (gamma gammaLambda : ℚ) : List GAEStepData → List ℚ × List ℚ
  | [] => ([], [])
  | s :: rest =>
    let pr := gaeBackwardLoop gamma gammaLambda rest
    let delta := s.rewUsed + gamma * s.nextVal - s.valPred
    let curReturn := s.rawRew + pr.2.headD 0 * gamma * s.ndnt
    let curAdv := delta + gammaLambda * s.ndnt * pr.1.headD 0
    (curAdv :: pr.1, curReturn :: pr.2)

/-- GAE.cpp line 45: reward normalization happens only when
`returnStd != 0 && returnStd != 1`. -/
def gaeShouldNormalize (returnStd : ℚ) : Prop :=
  returnStd ≠ 0 ∧ returnStd ≠ 1

instance (returnStd : ℚ) : Decidable (gaeShouldNormalize returnStd) := by
  unfold gaeShouldNormalize; infer_instance

/-- GAE.cpp pass 3: the optionally clamped normalized rewards
(`shouldClip` is `clipRange > 0`, line 46). -/
def gaeClippedRews (normalized : List ℚ) (clipRange : ℚ) : List ℚ :=
  if 0 < clipRange then normalized.map (fun x => rsClamp x (-clipRange) clipRange)
  else normalized

/-- Total absolute reward mass of a list (`localTotalRew` /
`localTotalClippedRew` accumulators of GAE.cpp pass 3). -/
def gaeTotalAbs (l : List ℚ) : ℚ := (l.map (fun x => |x|)).sum

/-- The reported clip fraction (GAE.cpp lines 202-207):
`(totalRew - totalClippedRew) / max(totalRew, 1e-7)` when normalizing,
`0` otherwise. -/
def gaeRewClipPortion (rews : List ℚ) (returnStd clipRange : ℚ) : ℚ :=
  if gaeShouldNormalize returnStd then
    let normalized := rews.map (fun r => r * (1 / returnStd))
    let totalRew := gaeTotalAbs normalized
    let totalClippedRew := gaeTotalAbs (gaeClippedRews normalized clipRange)
    (totalRew - totalClippedRew) / max totalRew (1 / 10000000)
  else 0

/-- The outputs of `GGL::GAE::Compute`. -/
structure GAEResult where
  advantages : List ℚ
  returns : List ℚ
  targetValues : List ℚ
  rewClipPortion : ℚ
deriving DecidableEq, Repr

/-- GAE.cpp line 47: `invReturnStd` (`1` unless normalizing). -/
def gaeInvReturnStd (returnStd : ℚ) : ℚ :=
  if gaeShouldNormalize returnStd then 1 / returnStd else 1

/-- The `rewardsPtr` array of GAE.cpp pass 4 (line 107, 164-167): the
normalized-and-optionally-clamped rewards when normalizing, the raw rewards
otherwise. -/
def gaeRewardsUsed (rews : List ℚ) (returnStd clipRange : ℚ) : List ℚ :=
  if gaeShouldNormalize returnStd then
    gaeClippedRews (rews.map (fun r => r * gaeInvReturnStd returnStd)) clipRange
  else rews

/-- The per-step inputs of the backward loop, assembled from the pass 2/3
precomputed arrays of GAE.cpp. -/
def gaeSteps (rews : List ℚ) (terminals : List TerminalType) (valPreds : List ℚ)
    (truncValPreds : Option (List ℚ)) (returnStd clipRange : ℚ) : List GAEStepData :=
  (List.range rews.length).map (fun i =>
    { rewUsed := (gaeRewardsUsed rews returnStd clipRange).getD i 0
      rawRew := rews.getD i 0
      nextVal := nextValPred rews.length terminals valPreds truncValPreds i
      ndnt := notDoneNotTruncVal (terminals.getD i TerminalType.notTerminal)
      valPred := valPreds.getD i 0 : GAEStepData })

/-- `GGL::GAE::Compute` (GAE.cpp lines 7-208).  The empty rollout returns
empty tensors and zero clip fraction (lines 15-21); a truncation-count
mismatch hits `RG_ERR_CLOSE` (lines 196-197), modelled as `none`; otherwise
the four passes produce advantages, raw-reward returns, target values
(`V + advantage`, line 200) and the clip fraction. -/
def GAECompute (rews : List ℚ) (terminals : List TerminalType)
    (valPreds : List ℚ) (truncValPreds : Option (List ℚ))
    (gamma lam returnStd clipRange : ℚ) : Option GAEResult :=
  if rews.length = 0 then
    some { advantages := [], returns := [], targetValues := [], rewClipPortion := 0 }
  else if truncValPreds.isSome ∧
      (truncStepIndices terminals).length ≠ (truncValPreds.getD []).length then
    none
  else
    let lr := gaeBackwardLoop gamma (gamma * lam)
      (gaeSteps rews terminals valPreds truncValPreds returnStd clipRange)
    some { advantages := lr.1
           returns := lr.2
           targetValues :=
             (List.range rews.length).map (fun i => valPreds.getD i 0 + lr.1.getD i 0)
           rewClipPortion := gaeRewClipPortion rews returnStd clipRange }

/-- The spec's `notDoneNotTrunc[s]` (claim C1 wording): `1` exactly when the
terminal is neither `NORMAL` nor `TRUNCATED`. -/
def specNotDoneNotTrunc (t : TerminalType) : ℚ :=
  if t ≠ TerminalType.normal ∧ t ≠ TerminalType.truncated then 1 else 0

/-- Truncation-order position of step `s`: the number of `TRUNCATED` steps
strictly before `s`. -/
def specTruncOrderIdx (terminals : List TerminalType) (s : ℕ) : ℕ :=
  ((List.range s).filter
    (fun i => decide (terminals.getD i TerminalType.notTerminal = TerminalType.truncated))).length

/-- The spec's `nextVal[s]` (claim C1 wording): `0` on `NORMAL`, the
truncation-order entry of `truncValPreds` on `TRUNCATED` when supplied,
`V[s+1]` otherwise, `0` when `s` is the last step. -/
def specNextVal (n : ℕ) (terminals : List TerminalType) (valPreds : List ℚ)
    (truncValPreds : Option (List ℚ)) (s : ℕ) : ℚ :=
  let t := terminals.getD s TerminalType.notTerminal
  if t = TerminalType.normal then 0
  else if t = TerminalType.truncated ∧ truncValPreds.isSome then
    (truncValPreds.getD []).getD (specTruncOrderIdx terminals s) 0
  else if s + 1 < n then valPreds.getD (s + 1) 0
  else 0

/-- Default step record used only as a `getD` fallback. -/
def gaeStepDefault : GAEStepData := { rewUsed := 0, rawRew := 0, nextVal := 0, ndnt := 0, valPred := 0 }

theorem headD_eq_getD_zero {α : Type} (l : List α) (d : α) : l.headD d = l.getD 0 d := by
  cases l <;> rfl

theorem gaeBackwardLoop_length (gamma gammaLambda : ℚ) (steps : List GAEStepData) :
    (gaeBackwardLoop gamma gammaLambda steps).1.length = steps.length ∧
    (gaeBackwardLoop gamma gammaLambda steps).2.length = steps.length := by
  induction steps with
  | nil => simp [gaeBackwardLoop]
  | cons x rest ih => simp [gaeBackwardLoop, ih.1, ih.2]

theorem gaeBackwardLoop_getD (gamma gammaLambda : ℚ) (steps : List GAEStepData) :
    ∀ s, s < steps.length →
      (gaeBackwardLoop gamma gammaLambda steps).1.getD s 0 =
        ((steps.getD s gaeStepDefault).rewUsed +
          gamma * (steps.getD s gaeStepDefault).nextVal -
          (steps.getD s gaeStepDefault).valPred) +
        gammaLambda * (steps.getD s gaeStepDefault).ndnt *
          (gaeBackwardLoop gamma gammaLambda steps).1.getD (s + 1) 0 ∧
      (gaeBackwardLoop gamma gammaLambda steps).2.getD s 0 =
        (steps.getD s gaeStepDefault).rawRew +
          (gaeBackwardLoop gamma gammaLambda steps).2.getD (s + 1) 0 * gamma *
            (steps.getD s gaeStepDefault).ndnt := by
  induction steps with
  | nil => intro s hs; simp at hs
  | cons x rest ih =>
    intro s hs
    cases s with
    | zero =>
      dsimp only [gaeBackwardLoop]
      simp only [List.getD_cons_zero, List.getD_cons_succ, headD_eq_getD_zero]
      exact ⟨by ring_nf, trivial⟩
    | succ j =>
      have hj : j < rest.length := by simpa using hs
      have hrec := ih j hj
      dsimp only [gaeBackwardLoop]
      simp only [List.getD_cons_succ]
      exact hrec

theorem getD_range_map {α : Type} (f : ℕ → α) (n s : ℕ) (d : α) (hs : s < n) :
    ((List.range n).map f).getD s d = f s := by
  rw [getD_map_of_lt f (List.range n) s d 0 (by simpa using hs)]
  congr 1
  simp [List.getD_eq_getElem?_getD, List.getElem?_range hs]

theorem truncStepIndices_findIdx (terminals : List TerminalType) (s : ℕ)
    (hs : s < terminals.length)
    (ht : terminals.getD s TerminalType.notTerminal = TerminalType.truncated) :
    (truncStepIndices terminals).findIdx (fun j => decide (j = s)) =
      specTruncOrderIdx terminals s := by
  set p : ℕ → Bool :=
    fun i => decide (terminals.getD i TerminalType.notTerminal = TerminalType.truncated)
    with hp
  have hsplit : List.range terminals.length =
      List.range s ++ List.range' s (terminals.length - s) := by
    rw [List.range_eq_range', List.range_eq_range']
    have h := List.range'_append_1 0 s (terminals.length - s)
    rw [Nat.zero_add] at h
    rw [h]
    congr 1
    omega
  have hfirst : ((List.range s).filter p).findIdx (fun j => decide (j = s)) =
      ((List.range s).filter p).length := by
    apply List.findIdx_eq_length_of_false
    intro x hx
    have hxs : x < s := by
      have := List.mem_range.mp (List.mem_filter.mp hx).1
      exact this
    simp
    omega
  have hrest : terminals.length - s = (terminals.length - s - 1) + 1 := by omega
  rw [truncStepIndices, hsplit, List.filter_append, List.findIdx_append]
  rw [hfirst]
  have hnotlt : ¬ ((List.range s).filter p).length < ((List.range s).filter p).length :=
    lt_irrefl _
  rw [if_neg hnotlt]
  rw [hrest, List.range'_succ]
  have hps : p s = true := by
    simp only [hp, decide_eq_true_eq]
    exact ht
  rw [List.filter_cons_of_pos hps]
  rw [List.findIdx_cons]
  simp only [decide_True, cond_true]
  rw [specTruncOrderIdx]
  omega

theorem notDoneNotTruncVal_eq_spec (t : TerminalType) :
    notDoneNotTruncVal t = specNotDoneNotTrunc t := by
  cases t <;> simp [notDoneNotTruncVal, specNotDoneNotTrunc]

theorem nextValPred_eq_spec (n : ℕ) (terminals : List TerminalType)
    (valPreds : List ℚ) (truncValPreds : Option (List ℚ))
    (hterm : terminals.length = n)
    (htvp : ∀ tvp, truncValPreds = some tvp →
      tvp.length = (truncStepIndices terminals).length)
    (s : ℕ) (hs : s < n) :
    nextValPred n terminals valPreds truncValPreds s =
      specNextVal n terminals valPreds truncValPreds s := by
  rw [nextValPred, specNextVal]
  by_cases h1 : terminals.getD s TerminalType.notTerminal = TerminalType.normal
  · rw [if_pos h1, if_pos h1]
  · rw [if_neg h1, if_neg h1]
    by_cases h2 : terminals.getD s TerminalType.notTerminal = TerminalType.truncated ∧
        truncValPreds.isSome
    · rw [if_pos h2, if_pos h2]
      rcases truncValPreds with _ | tvp
      · simp at h2
      · have hlen : tvp.length = (truncStepIndices terminals).length := htvp tvp rfl
        have hfi := truncStepIndices_findIdx terminals s (by omega) h2.1
        have hmem : s ∈ truncStepIndices terminals := by
          rw [truncStepIndices]
          rw [List.mem_filter]
          constructor
          · exact List.mem_range.mpr (by omega)
          · simp only [decide_eq_true_eq]
            exact h2.1
        have hlt : (truncStepIndices terminals).findIdx (fun j => decide (j = s)) <
            (truncStepIndices terminals).length := by
          apply List.findIdx_lt_length_of_exists
          exact ⟨s, hmem, by simp⟩
        simp only [Option.getD_some]
        rw [if_pos ⟨hlt, by omega⟩]
        rw [hfi]
    · rw [if_neg h2, if_neg h2]
      by_cases h3 : s + 1 < n
      · rw [if_pos (show s < n - 1 by omega), if_pos h3]
      · rw [if_neg (show ¬ s < n - 1 by omega), if_neg h3]

theorem GAECompute_eq_some (rews : List ℚ) (terminals : List TerminalType)
    (valPreds : List ℚ) (truncValPreds : Option (List ℚ))
    (gamma lam returnStd clipRange : ℚ)
    (hne : ¬ rews.length = 0)
    (hmis : ¬ (truncValPreds.isSome ∧
      (truncStepIndices terminals).length ≠ (truncValPreds.getD []).length)) :
    GAECompute rews terminals valPreds truncValPreds gamma lam returnStd clipRange =
      some { advantages := (gaeBackwardLoop gamma (gamma * lam)
               (gaeSteps rews terminals valPreds truncValPreds returnStd clipRange)).1
             returns := (gaeBackwardLoop gamma (gamma * lam)
               (gaeSteps rews terminals valPreds truncValPreds returnStd clipRange)).2
             targetValues := (List.range rews.length).map (fun i =>
               valPreds.getD i 0 + (gaeBackwardLoop gamma (gamma * lam)
                 (gaeSteps rews terminals valPreds truncValPreds returnStd clipRange)).1.getD i 0)
             rewClipPortion := gaeRewClipPortion rews returnStd clipRange } := by
  rw [GAECompute, if_neg hne, if_neg hmis]

theorem gaeSteps_length (rews : List ℚ) (terminals : List TerminalType)
    (valPreds : List ℚ) (truncValPreds : Option (List ℚ)) (returnStd clipRange : ℚ) :
    (gaeSteps rews terminals valPreds truncValPreds returnStd clipRange).length =
      rews.length := by
  simp [gaeSteps]

theorem gaeShouldNormalize_one : ¬ gaeShouldNormalize (1 : ℚ) := by
  simp [gaeShouldNormalize]

theorem gaeRewardsUsed_one (rews : List ℚ) (clipRange : ℚ) :
    gaeRewardsUsed rews 1 clipRange = rews := by
  rw [gaeRewardsUsed, if_neg gaeShouldNormalize_one]

theorem gaeSteps_getD (rews : List ℚ) (terminals : List TerminalType)
    (valPreds : List ℚ) (truncValPreds : Option (List ℚ)) (returnStd clipRange : ℚ)
    (s : ℕ) (hs : s < rews.length) :
    (gaeSteps rews terminals valPreds truncValPreds returnStd clipRange).getD s
        gaeStepDefault =
      { rewUsed := (gaeRewardsUsed rews returnStd clipRange).getD s 0
        rawRew := rews.getD s 0
        nextVal := nextValPred rews.length terminals valPreds truncValPreds s
        ndnt := notDoneNotTruncVal (terminals.getD s TerminalType.notTerminal)
        valPred := valPreds.getD s 0 : GAEStepData } := by
  rw [gaeSteps]
  exact getD_range_map _ _ _ _ hs

/-- C1: for a non-empty rollout with `returnStd = 1` (normalization disabled),
the outputs of `GAE::Compute` satisfy the spec's backward recurrence with the
spec's `notDoneNotTrunc` and `nextVal` (truncation-order bootstrap on
`TRUNCATED` when `truncValPreds` is supplied, `V[s+1]` otherwise, `0` past
the last step), the returns recurrence on raw rewards, and
`targetValue[s] = V[s] + advantage[s]`; in particular a 1-step `NORMAL`
rollout yields `advantage = [r - v]` and `return = [r]`, and a 1-step
`TRUNCATED` rollout with bootstrap `b` yields `advantage = [r + gamma*b - v]`. -/
theorem claim_C1_gae_backward_recurrence (rews : List ℚ)
    (terminals : List TerminalType) (valPreds : List ℚ)
    (truncValPreds : Option (List ℚ)) (gamma lam clipRange : ℚ)
    (hne : rews.length ≠ 0)
    (hterm : terminals.length = rews.length)
    (htvp : ∀ tvp, truncValPreds = some tvp →
      tvp.length = (truncStepIndices terminals).length) :
    (∃ res : GAEResult,
      GAECompute rews terminals valPreds truncValPreds gamma lam 1 clipRange =
        some res ∧
      res.advantages.length = rews.length ∧
      res.returns.length = rews.length ∧
      (∀ s, s < rews.length →
        res.advantages.getD s 0 =
          (rews.getD s 0 +
            gamma * specNextVal rews.length terminals valPreds truncValPreds s -
            valPreds.getD s 0) +
          gamma * lam *
            specNotDoneNotTrunc (terminals.getD s TerminalType.notTerminal) *
            res.advantages.getD (s + 1) 0 ∧
        res.returns.getD s 0 =
          rews.getD s 0 +
            gamma * specNotDoneNotTrunc (terminals.getD s TerminalType.notTerminal) *
              res.returns.getD (s + 1) 0 ∧
        res.targetValues.getD s 0 = valPreds.getD s 0 + res.advantages.getD s 0)) ∧
    (∀ r v g l c : ℚ, ∃ res : GAEResult,
      GAECompute [r] [TerminalType.normal] [v] none g l 1 c = some res ∧
      res.advantages = [r - v] ∧ res.returns = [r]) ∧
    (∀ r v b g l c : ℚ, ∃ res : GAEResult,
      GAECompute [r] [TerminalType.truncated] [v] (some [b]) g l 1 c = some res ∧
      res.advantages = [r + g * b - v]) := by
  refine ⟨?_, ?_, ?_⟩
  · have hmis : ¬ (truncValPreds.isSome ∧
        (truncStepIndices terminals).length ≠ (truncValPreds.getD []).length) := by
      rcases truncValPreds with _ | tvp
      · simp
      · have h := htvp tvp rfl
        simp only [Option.isSome_some, Option.getD_some, true_and, not_not]
        omega
    rw [GAECompute_eq_some rews terminals valPreds truncValPreds gamma lam 1 clipRange
      hne hmis]
    refine ⟨_, rfl, ?_, ?_, ?_⟩
    · simp [(gaeBackwardLoop_length gamma (gamma * lam) _).1, gaeSteps_length]
    · simp [(gaeBackwardLoop_length gamma (gamma * lam) _).2, gaeSteps_length]
    · intro s hs
      have hsteps : s <
          (gaeSteps rews terminals valPreds truncValPreds 1 clipRange).length := by
        rw [gaeSteps_length]; exact hs
      have hrec := gaeBackwardLoop_getD gamma (gamma * lam)
        (gaeSteps rews terminals valPreds truncValPreds 1 clipRange) s hsteps
      rw [gaeSteps_getD rews terminals valPreds truncValPreds 1 clipRange s hs,
        gaeRewardsUsed_one] at hrec
      refine ⟨?_, ?_, ?_⟩
      · rw [hrec.1]
        rw [nextValPred_eq_spec rews.length terminals valPreds truncValPreds hterm htvp s hs,
          notDoneNotTruncVal_eq_spec]
      · rw [hrec.2, notDoneNotTruncVal_eq_spec]
        ring
      · exact getD_range_map _ _ _ _ hs
  · intro r v g l c
    refine ⟨_, GAECompute_eq_some [r] [TerminalType.normal] [v] none g l 1 c
      (by simp) (by simp), ?_, ?_⟩
    · show (gaeBackwardLoop g (g * l)
        (gaeSteps [r] [TerminalType.normal] [v] none 1 c)).1 = [r - v]
      simp [gaeSteps, gaeRewardsUsed_one, nextValPred, notDoneNotTruncVal,
        gaeBackwardLoop]
    · show (gaeBackwardLoop g (g * l)
        (gaeSteps [r] [TerminalType.normal] [v] none 1 c)).2 = [r]
      simp [gaeSteps, gaeRewardsUsed_one, nextValPred, notDoneNotTruncVal,
        gaeBackwardLoop]
  · intro r v b g l c
    have hmis : ¬ ((some [b]).isSome ∧
        (truncStepIndices [TerminalType.truncated]).length ≠
          ((some [b]).getD []).length) := by
      intro h
      exact h.2 rfl
    refine ⟨_, GAECompute_eq_some [r] [TerminalType.truncated] [v] (some [b]) g l 1 c
      (by simp) hmis, ?_⟩
    show (gaeBackwardLoop g (g * l)
      (gaeSteps [r] [TerminalType.truncated] [v] (some [b]) 1 c)).1 = [r + g * b - v]
    have htis : truncStepIndices [TerminalType.truncated] = [0] := rfl
    have hnv : nextValPred 1 [TerminalType.truncated] [v] (some [b]) 0 = b := by
      simp [nextValPred, htis, List.findIdx_cons]
    simp [gaeSteps, gaeRewardsUsed_one, hnv, notDoneNotTruncVal, gaeBackwardLoop]

theorem claim_C1_gae_backward_recurrence_witness :
    (([1] : List ℚ).length ≠ 0 ∧
     ([TerminalType.normal] : List TerminalType).length = ([1] : List ℚ).length ∧
     (∀ tvp : List ℚ, (none : Option (List ℚ)) = some tvp →
       tvp.length = (truncStepIndices [TerminalType.normal]).length)) ∧
    ((∃ res : GAEResult,
      GAECompute [1] [TerminalType.normal] [2] none 1 1 1 0 = some res ∧
      res.advantages.length = ([1] : List ℚ).length ∧
      res.returns.length = ([1] : List ℚ).length ∧
      (∀ s, s < ([1] : List ℚ).length →
        res.advantages.getD s 0 =
          (([1] : List ℚ).getD s 0 +
            1 * specNextVal ([1] : List ℚ).length [TerminalType.normal] [2] none s -
            ([2] : List ℚ).getD s 0) +
          1 * 1 *
            specNotDoneNotTrunc (([TerminalType.normal] : List TerminalType).getD s
              TerminalType.notTerminal) *
            res.advantages.getD (s + 1) 0 ∧
        res.returns.getD s 0 =
          ([1] : List ℚ).getD s 0 +
            1 * specNotDoneNotTrunc (([TerminalType.normal] : List TerminalType).getD s
              TerminalType.notTerminal) *
              res.returns.getD (s + 1) 0 ∧
        res.targetValues.getD s 0 =
          ([2] : List ℚ).getD s 0 + res.advantages.getD s 0)) ∧
    (∀ r v g l c : ℚ, ∃ res : GAEResult,
      GAECompute [r] [TerminalType.normal] [v] none g l 1 c = some res ∧
      res.advantages = [r - v] ∧ res.returns = [r]) ∧
    (∀ r v b g l c : ℚ, ∃ res : GAEResult,
      GAECompute [r] [TerminalType.truncated] [v] (some [b]) g l 1 c = some res ∧
      res.advantages = [r + g * b - v])) :=
  ⟨⟨by decide, by decide, fun tvp h => by cases h⟩,
    claim_C1_gae_backward_recurrence [1] [TerminalType.normal] [2] none 1 1 0
      (by decide) (by decide) (fun tvp h => by cases h)⟩

theorem gaeRewClipPortion_nil (returnStd clipRange : ℚ) :
    gaeRewClipPortion [] returnStd clipRange = 0 := by
  rw [gaeRewClipPortion]
  split
  · simp [gaeTotalAbs, gaeClippedRews, apply_ite]
  · rfl

theorem GAECompute_rewClipPortion (rews : List ℚ) (terminals : List TerminalType)
    (valPreds : List ℚ) (truncValPreds : Option (List ℚ))
    (gamma lam returnStd clipRange : ℚ) (res : GAEResult)
    (h : GAECompute rews terminals valPreds truncValPreds gamma lam returnStd clipRange =
      some res) :
    res.rewClipPortion = gaeRewClipPortion rews returnStd clipRange := by
  rw [GAECompute] at h
  by_cases h0 : rews.length = 0
  · rw [if_pos h0] at h
    have hnil : rews = [] := List.length_eq_zero.mp h0
    rw [Option.some.injEq] at h
    rw [← h, hnil, gaeRewClipPortion_nil]
  · rw [if_neg h0] at h
    by_cases h1 : truncValPreds.isSome ∧
        (truncStepIndices terminals).length ≠ (truncValPreds.getD []).length
    · rw [if_pos h1] at h
      simp at h
    · rw [if_neg h1] at h
      rw [Option.some.injEq] at h
      rw [← h]

theorem abs_rsClamp (x c : ℚ) (hc : 0 < c) : |rsClamp x (-c) c| = min |x| c := by
  rw [rsClamp]
  rcases le_total x (-c) with h1 | h1
  · have hxc : x ≤ c := le_trans h1 (by linarith)
    rw [min_eq_left hxc, max_eq_right h1, abs_neg, abs_of_pos hc]
    have hcx : c ≤ |x| := by
      rw [abs_of_nonpos (by linarith)]
      linarith
    rw [min_eq_right hcx]
  · rcases le_total c x with h2 | h2
    · rw [min_eq_right h2, max_eq_left (by linarith), abs_of_pos hc]
      have hcx : c ≤ |x| := by
        rw [abs_of_nonneg (by linarith)]
        exact h2
      rw [min_eq_right hcx]
    · rw [min_eq_left h2, max_eq_left h1]
      rw [min_eq_left (abs_le.mpr ⟨h1, h2⟩)]

theorem gaeTotalAbs_clipped_mono (l : List ℚ) (c1 c2 : ℚ)
    (h1 : 0 < c1) (h12 : c1 ≤ c2) :
    gaeTotalAbs (gaeClippedRews l c1) ≤ gaeTotalAbs (gaeClippedRews l c2) := by
  rw [gaeClippedRews, gaeClippedRews, if_pos h1, if_pos (lt_of_lt_of_le h1 h12)]
  rw [gaeTotalAbs, gaeTotalAbs, List.map_map, List.map_map]
  apply List.sum_le_sum
  intro x _
  show |rsClamp x (-c1) c1| ≤ |rsClamp x (-c2) c2|
  rw [abs_rsClamp x c1 h1, abs_rsClamp x c2 (lt_of_lt_of_le h1 h12)]
  exact min_le_min (le_refl _) h12

theorem gaeRewClipPortion_mono (rews : List ℚ) (returnStd c1 c2 : ℚ)
    (h1 : 0 < c1) (h12 : c1 ≤ c2) :
    gaeRewClipPortion rews returnStd c2 ≤ gaeRewClipPortion rews returnStd c1 := by
  rw [gaeRewClipPortion, gaeRewClipPortion]
  by_cases hsn : gaeShouldNormalize returnStd
  · rw [if_pos hsn, if_pos hsn]
    have hd : (0 : ℚ) < max (gaeTotalAbs (rews.map (fun r => r * (1 / returnStd))))
        (1 / 10000000) :=
      lt_max_iff.mpr (Or.inr (by norm_num))
    apply (div_le_div_iff_of_pos_right hd).mpr
    have := gaeTotalAbs_clipped_mono (rews.map (fun r => r * (1 / returnStd))) c1 c2 h1 h12
    linarith
  · rw [if_neg hsn, if_neg hsn]

theorem gaeClippedRews_eq_of_le (l : List ℚ) (c : ℚ) (h : ∀ x ∈ l, |x| ≤ c) :
    gaeClippedRews l c = l := by
  rw [gaeClippedRews]
  split
  · induction l with
    | nil => simp
    | cons a t ih =>
      have ha := h a (by simp)
      have hmem : ∀ x ∈ t, |x| ≤ c := fun x hx => h x (by simp [hx])
      simp only [List.map_cons]
      rw [ih hmem]
      have h1 : a ≤ c := (abs_le.mp ha).2
      have h2 : -c ≤ a := (abs_le.mp ha).1
      rw [rsClamp, min_eq_left h1, max_eq_left h2]
  · rfl

theorem gaeRewClipPortion_eq_zero (rews : List ℚ) (returnStd c : ℚ)
    (h : ∀ x ∈ rews, |x * (1 / returnStd)| ≤ c) :
    gaeRewClipPortion rews returnStd c = 0 := by
  rw [gaeRewClipPortion]
  by_cases hsn : gaeShouldNormalize returnStd
  · rw [if_pos hsn]
    have hcl : gaeClippedRews (rews.map (fun r => r * (1 / returnStd))) c =
        rews.map (fun r => r * (1 / returnStd)) := by
      apply gaeClippedRews_eq_of_le
      intro x hx
      rcases List.mem_map.mp hx with ⟨y, hy, rfl⟩
      exact h y hy
    show (gaeTotalAbs (rews.map (fun r => r * (1 / returnStd))) -
        gaeTotalAbs (gaeClippedRews (rews.map (fun r => r * (1 / returnStd))) c)) /
        max (gaeTotalAbs (rews.map (fun r => r * (1 / returnStd)))) (1 / 10000000) = 0
    rw [hcl, sub_self, zero_div]
  · rw [if_neg hsn]

/-- C9: for fixed inputs and a fixed `returnStd` not `0` or `1`, the reported
clip fraction of `GAE::Compute` is monotonically non-increasing in
`clipRange` over `clipRange > 0`, and is exactly `0` whenever `clipRange`
bounds every absolute normalized reward. -/
theorem claim_C9_clip_portion_monotone (rews : List ℚ)
    (terminals : List TerminalType) (valPreds : List ℚ)
    (truncValPreds : Option (List ℚ)) (gamma lam returnStd : ℚ)
    (hstd0 : returnStd ≠ 0) (hstd1 : returnStd ≠ 1) :
    (∀ c1 c2 res1 res2, 0 < c1 → c1 ≤ c2 →
      GAECompute rews terminals valPreds truncValPreds gamma lam returnStd c1 =
        some res1 →
      GAECompute rews terminals valPreds truncValPreds gamma lam returnStd c2 =
        some res2 →
      res2.rewClipPortion ≤ res1.rewClipPortion) ∧
    (∀ c res, (∀ x ∈ rews, |x * (1 / returnStd)| ≤ c) →
      GAECompute rews terminals valPreds truncValPreds gamma lam returnStd c =
        some res →
      res.rewClipPortion = 0) := by
  constructor
  · intro c1 c2 res1 res2 h1 h12 hr1 hr2
    rw [GAECompute_rewClipPortion rews terminals valPreds truncValPreds
      gamma lam returnStd c1 res1 hr1]
    rw [GAECompute_rewClipPortion rews terminals valPreds truncValPreds
      gamma lam returnStd c2 res2 hr2]
    exact gaeRewClipPortion_mono rews returnStd c1 c2 h1 h12
  · intro c res hbound hr
    rw [GAECompute_rewClipPortion rews terminals valPreds truncValPreds
      gamma lam returnStd c res hr]
    exact gaeRewClipPortion_eq_zero rews returnStd c hbound

theorem gaeRewardsUsed_not_norm (rews : List ℚ) (returnStd clipRange : ℚ)
    (hsn : ¬ gaeShouldNormalize returnStd) :
    gaeRewardsUsed rews returnStd clipRange = rews := by
  rw [gaeRewardsUsed, if_neg hsn]

/-- C10: with `returnStd = 1` (the value passed when return standardization is
disabled) or `returnStd = 0`, `GAE::Compute` applies no reward normalization
and no clamping at all — its full output equals the raw computation with
`returnStd = 1, clipRange = 0` for every `clipRange` — and the reported clip
portion is exactly `0`. -/
theorem claim_C10_no_normalization_edge (rews : List ℚ)
    (terminals : List TerminalType) (valPreds : List ℚ)
    (truncValPreds : Option (List ℚ)) (gamma lam returnStd clipRange : ℚ)
    (h : returnStd = 0 ∨ returnStd = 1) :
    GAECompute rews terminals valPreds truncValPreds gamma lam returnStd clipRange =
      GAECompute rews terminals valPreds truncValPreds gamma lam 1 0 ∧
    (∀ res,
      GAECompute rews terminals valPreds truncValPreds gamma lam returnStd clipRange =
        some res →
      res.rewClipPortion = 0) := by
  have hsn : ¬ gaeShouldNormalize returnStd := by
    rcases h with h | h <;> simp [h, gaeShouldNormalize]
  constructor
  · rw [GAECompute, GAECompute]
    have hsteps : gaeSteps rews terminals valPreds truncValPreds returnStd clipRange =
        gaeSteps rews terminals valPreds truncValPreds 1 0 := by
      rw [gaeSteps, gaeSteps, gaeRewardsUsed_not_norm rews returnStd clipRange hsn,
        gaeRewardsUsed_not_norm rews 1 0 gaeShouldNormalize_one]
    have hportion : gaeRewClipPortion rews returnStd clipRange =
        gaeRewClipPortion rews 1 0 := by
      rw [gaeRewClipPortion, gaeRewClipPortion, if_neg hsn,
        if_neg gaeShouldNormalize_one]
    rw [hsteps, hportion]
  · intro res hres
    rw [GAECompute_rewClipPortion rews terminals valPreds truncValPreds
      gamma lam returnStd clipRange res hres]
    rw [gaeRewClipPortion, if_neg hsn]

theorem claim_C9_clip_portion_monotone_witness :
    ((2 : ℚ) ≠ 0 ∧ (2 : ℚ) ≠ 1) ∧
    ((∀ c1 c2 res1 res2, 0 < c1 → c1 ≤ c2 →
      GAECompute [3] [TerminalType.normal] [0] none 1 1 2 c1 = some res1 →
      GAECompute [3] [TerminalType.normal] [0] none 1 1 2 c2 = some res2 →
      res2.rewClipPortion ≤ res1.rewClipPortion) ∧
     (∀ c res, (∀ x ∈ ([3] : List ℚ), |x * (1 / 2)| ≤ c) →
      GAECompute [3] [TerminalType.normal] [0] none 1 1 2 c = some res →
      res.rewClipPortion = 0)) :=
  ⟨⟨by norm_num, by norm_num⟩,
    claim_C9_clip_portion_monotone [3] [TerminalType.normal] [0] none 1 1 2
      (by norm_num) (by norm_num)⟩

theorem claim_C10_no_normalization_edge_witness :
    ((1 : ℚ) = 0 ∨ (1 : ℚ) = 1) ∧
    (GAECompute [3] [TerminalType.normal] [0] none 1 1 1 5 =
      GAECompute [3] [TerminalType.normal] [0] none 1 1 1 0 ∧
     (∀ res, GAECompute [3] [TerminalType.normal] [0] none 1 1 1 5 = some res →
      res.rewClipPortion = 0)) :=
  ⟨Or.inr rfl,
    claim_C10_no_normalization_edge [3] [TerminalType.normal] [0] none 1 1 1 5
      (Or.inr rfl)⟩

/-- The batch loop of `GGL::ExperienceBuffer::GetAllBatchesShuffled`
(ExperienceBuffer.cpp lines 143-160).  Produces the contiguous
`(startIdx, endIdx)` ranges into the shuffled index array; batch contents are
the shuffled indices in that range, so batch lengths are `endIdx - startIdx`.
The `batchSize > 0` guard makes the recursion well-founded (the C++ loop does
not terminate for a non-positive batch size). -/
def getAllBatchesGo (expSize batchSize : ℕ) (overbatching : Bool)
    (startIdx : ℕ) : List (ℕ × ℕ) :=
  if h : 0 < batchSize ∧ startIdx < expSize then
    let endIdx := startIdx + batchSize
    let endIdx2 := if overbatching ∧ expSize < endIdx + batchSize then expSize else endIdx
    if expSize < endIdx2 then []
    else if endIdx2 ≤ startIdx then []
    else if endIdx2 = expSize then [(startIdx, endIdx2)]
    else (startIdx, endIdx2) :: getAllBatchesGo expSize batchSize overbatching
      (startIdx + batchSize)
  else []
termination_by expSize - startIdx
decreasing_by
  omega

/-- `GGL::ExperienceBuffer::GetAllBatchesShuffled` reduced to the list of
index ranges it samples (the `_GetSamples` call at line 156 materializes
exactly the range `[startIdx, endIdx)` of the shuffled indices). -/
def getAllBatchesShuffledRanges (expSize batchSize : ℕ) (overbatching : Bool) :
    List (ℕ × ℕ) :=
  getAllBatchesGo expSize batchSize overbatching 0

theorem getAllBatchesGo_merge (expSize batchSize startIdx : ℕ)
    (hB : 0 < batchSize) (hs : startIdx < expSize)
    (hm : expSize < startIdx + 2 * batchSize) :
    getAllBatchesGo expSize batchSize true startIdx = [(startIdx, expSize)] := by
  rw [getAllBatchesGo]
  rw [dif_pos ⟨hB, hs⟩]
  dsimp only
  rw [if_pos (show true = true ∧ expSize < startIdx + batchSize + batchSize from
    ⟨rfl, by omega⟩)]
  rw [if_neg (by omega), if_neg (by omega), if_pos rfl]

theorem getAllBatchesGo_step (expSize batchSize startIdx : ℕ)
    (hB : 0 < batchSize) (hm : startIdx + 2 * batchSize ≤ expSize) :
    getAllBatchesGo expSize batchSize true startIdx =
      (startIdx, startIdx + batchSize) ::
        getAllBatchesGo expSize batchSize true (startIdx + batchSize) := by
  rw [getAllBatchesGo]
  rw [dif_pos ⟨hB, by omega⟩]
  dsimp only
  rw [if_neg (show ¬ (true = true ∧ expSize < startIdx + batchSize + batchSize) from
    by intro hcon; omega)]
  rw [if_neg (by omega), if_neg (by omega), if_neg (by omega)]

theorem getAllBatchesGo_sum (expSize batchSize : ℕ) (hB : 0 < batchSize) :
    ∀ fuel startIdx, expSize - startIdx ≤ fuel → startIdx < expSize →
      ((getAllBatchesGo expSize batchSize true startIdx).map
        (fun r => r.2 - r.1)).sum = expSize - startIdx := by
  intro fuel
  induction fuel with
  | zero => intro startIdx hf hs; omega
  | succ k ih =>
    intro startIdx hf hs
    by_cases hm : expSize < startIdx + 2 * batchSize
    · rw [getAllBatchesGo_merge expSize batchSize startIdx hB hs hm]
      simp
    · rw [getAllBatchesGo_step expSize batchSize startIdx hB (by omega)]
      rw [List.map_cons, List.sum_cons]
      rw [ih (startIdx + batchSize) (by omega) (by omega)]
      omega

theorem getAllBatchesGo_min_len (expSize batchSize : ℕ) (hB : 0 < batchSize) :
    ∀ fuel startIdx, expSize - startIdx ≤ fuel →
      startIdx + batchSize ≤ expSize →
      ∀ r ∈ getAllBatchesGo expSize batchSize true startIdx,
        batchSize ≤ r.2 - r.1 := by
  intro fuel
  induction fuel with
  | zero => intro startIdx hf hs; omega
  | succ k ih =>
    intro startIdx hf hs r hr
    by_cases hm : expSize < startIdx + 2 * batchSize
    · rw [getAllBatchesGo_merge expSize batchSize startIdx hB (by omega) hm] at hr
      rcases List.mem_singleton.mp hr with rfl
      simp
      omega
    · rw [getAllBatchesGo_step expSize batchSize startIdx hB (by omega)] at hr
      rcases List.mem_cons.mp hr with rfl | htail
      · simp
      · exact ih (startIdx + batchSize) (by omega) (by omega) r htail

/-- C5: with overbatching enabled and `L, B > 0`, `GetAllBatchesShuffled`
covers the whole buffer (batch lengths sum to `L`) and never returns a batch
shorter than `B` unless it is the only batch: a positive final remainder
smaller than `B` is merged into the prior batch instead of being dropped. -/
theorem claim_C5_overbatching_law (expSize batchSize : ℕ)
    (hL : 0 < expSize) (hB : 0 < batchSize) :
    (((getAllBatchesShuffledRanges expSize batchSize true).map
      (fun r => r.2 - r.1)).sum = expSize) ∧
    (∀ r ∈ getAllBatchesShuffledRanges expSize batchSize true,
      batchSize ≤ r.2 - r.1 ∨
        (getAllBatchesShuffledRanges expSize batchSize true).length = 1) := by
  rw [getAllBatchesShuffledRanges]
  constructor
  · have := getAllBatchesGo_sum expSize batchSize hB expSize 0 (by omega) hL
    rw [this]
    omega
  · intro r hr
    by_cases hm : expSize < 2 * batchSize
    · right
      rw [getAllBatchesGo_merge expSize batchSize 0 hB hL (by omega)]
      rfl
    · left
      exact getAllBatchesGo_min_len expSize batchSize hB expSize 0 (by omega)
        (by omega) r hr

theorem claim_C5_overbatching_law_witness :
    (0 < 7 ∧ 0 < 3) ∧
    ((((getAllBatchesShuffledRanges 7 3 true).map
      (fun r => r.2 - r.1)).sum = 7) ∧
    (∀ r ∈ getAllBatchesShuffledRanges 7 3 true,
      3 ≤ r.2 - r.1 ∨ (getAllBatchesShuffledRanges 7 3 true).length = 1)) :=
  ⟨⟨by decide, by decide⟩, claim_C5_overbatching_law 7 3 (by decide) (by decide)⟩

/-- Invocation indices of `RLGC::ThreadPool::StartBatchedJobs`
(ThreadPool.h lines 29-36): one job per index `i` in `[0, num)`, in order. -/
def startBatchedJobsIndices (num : ℕ) : List ℕ := List.range num

/-- The chunk loop of `RLGC::ThreadPool::StartBatchedJobsChunked`
(ThreadPool.h lines 52-63): worker `t` gets the contiguous range
`[t * chunkSize, min ((t+1) * chunkSize) num)`; the loop breaks once a chunk
would start past `num`. -/
def startBatchedJobsChunkedGo (num numThreads chunkSize : ℕ) (t : ℕ) : List ℕ :=
  if h : t < numThreads then
    if hstart : t * chunkSize < num then
      List.range' (t * chunkSize) (min (t * chunkSize + chunkSize) num - t * chunkSize) ++
        startBatchedJobsChunkedGo num numThreads chunkSize (t + 1)
    else []
  else []
termination_by numThreads - t

/-- Invocation indices of `RLGC::ThreadPool::StartBatchedJobsChunked`
(ThreadPool.h lines 40-67): early return on `num ≤ 0`, delegation to
`StartBatchedJobs` when `num ≤ 2 * numThreads`, otherwise the chunked loop
with `chunkSize = ceil(num / numThreads)`. -/
def startBatchedJobsChunkedIndices (num numThreads : ℕ) : List ℕ :=
  if num = 0 then []
  else if num ≤ numThreads * 2 then startBatchedJobsIndices num
  else startBatchedJobsChunkedGo num numThreads
    ((num + numThreads - 1) / numThreads) 0

theorem startBatchedJobsChunkedGo_past (num numThreads chunkSize t : ℕ)
    (h : num ≤ t * chunkSize) :
    startBatchedJobsChunkedGo num numThreads chunkSize t = [] := by
  rw [startBatchedJobsChunkedGo]
  by_cases ht : t < numThreads
  · rw [dif_pos ht, dif_neg (by omega)]
  · rw [dif_neg ht]

theorem startBatchedJobsChunkedGo_covers (num numThreads chunkSize : ℕ)
    (hc : 0 < chunkSize) (hcover : num ≤ numThreads * chunkSize) :
    ∀ fuel t, numThreads - t ≤ fuel → t * chunkSize ≤ num →
      startBatchedJobsChunkedGo num numThreads chunkSize t =
        List.range' (t * chunkSize) (num - t * chunkSize) := by
  intro fuel
  induction fuel with
  | zero =>
    intro t hf hs
    have ht : numThreads ≤ t := by omega
    have hnum : num ≤ t * chunkSize :=
      le_trans hcover (Nat.mul_le_mul_right chunkSize ht)
    rw [startBatchedJobsChunkedGo_past num numThreads chunkSize t hnum]
    have : num - t * chunkSize = 0 := by omega
    rw [this, List.range'_zero]
  | succ k ih =>
    intro t hf hs
    by_cases hend : num ≤ t * chunkSize
    · rw [startBatchedJobsChunkedGo_past num numThreads chunkSize t hend]
      have : num - t * chunkSize = 0 := by omega
      rw [this, List.range'_zero]
    · have ht : t < numThreads := by
        by_contra hcon
        have : numThreads * chunkSize ≤ t * chunkSize :=
          Nat.mul_le_mul_right chunkSize (by omega)
        omega
      rw [startBatchedJobsChunkedGo]
      rw [dif_pos ht, dif_pos (by omega)]
      by_cases hfit : t * chunkSize + chunkSize ≤ num
      · rw [min_eq_left hfit, Nat.add_sub_cancel_left]
        rw [ih (t + 1) (by omega) (by rw [Nat.succ_mul]; omega)]
        rw [Nat.succ_mul]
        rw [List.range'_append_1 (t * chunkSize) chunkSize
          (num - (t * chunkSize + chunkSize))]
        congr 1
        omega
      · rw [min_eq_right (by omega)]
        rw [startBatchedJobsChunkedGo_past num numThreads chunkSize (t + 1)
          (by rw [Nat.succ_mul]; omega)]
        rw [List.append_nil]

theorem ceil_div_mul_ge (num numThreads : ℕ) (hT : 0 < numThreads) :
    num ≤ numThreads * ((num + numThreads - 1) / numThreads) := by
  have hdm := Nat.div_add_mod (num + numThreads - 1) numThreads
  have hmod : (num + numThreads - 1) % numThreads < numThreads :=
    Nat.mod_lt _ hT
  omega

/-- C7: for `numThreads > 0`, `StartBatchedJobsChunked` invokes the callback
on exactly the indices `[0, num)` — the same invocations, in fact in the
same order, as the unchunked `StartBatchedJobs` (the chunks are disjoint
contiguous ranges concatenating to `[0, num)`) — and for
`num ≤ 2 * numThreads` it delegates to the unchunked `StartBatchedJobs`. -/
theorem claim_C7_chunked_jobs (num numThreads : ℕ) (hT : 0 < numThreads) :
    startBatchedJobsChunkedIndices num numThreads = List.range num ∧
    (num ≤ 2 * numThreads →
      startBatchedJobsChunkedIndices num numThreads =
        startBatchedJobsIndices num) := by
  have hmain : startBatchedJobsChunkedIndices num numThreads = List.range num := by
    rw [startBatchedJobsChunkedIndices]
    by_cases h0 : num = 0
    · rw [if_pos h0, h0, List.range_zero]
    · rw [if_neg h0]
      by_cases hsmall : num ≤ numThreads * 2
      · rw [if_pos hsmall, startBatchedJobsIndices]
      · rw [if_neg hsmall]
        have hcpos : 0 < (num + numThreads - 1) / numThreads :=
          Nat.div_pos (by omega) hT
        have hcover : num ≤ numThreads * ((num + numThreads - 1) / numThreads) :=
          ceil_div_mul_ge num numThreads hT
        rw [startBatchedJobsChunkedGo_covers num numThreads
          ((num + numThreads - 1) / numThreads) hcpos hcover numThreads 0
          (by omega) (by simp)]
        rw [List.range_eq_range']
        simp
  exact ⟨hmain, fun _ => by rw [hmain, startBatchedJobsIndices]⟩

theorem claim_C7_chunked_jobs_witness :
    0 < 2 ∧
    (startBatchedJobsChunkedIndices 10 2 = List.range 10 ∧
     (10 ≤ 2 * 2 →
      startBatchedJobsChunkedIndices 10 2 = startBatchedJobsIndices 10)) :=
  ⟨by decide, claim_C7_chunked_jobs 10 2 (by decide)⟩

/-- One arena as seen by the `EnvSet` constructor: its action parser's
reported action count (`GetActionAmount`), and per player the observation row
built by its observation builder and the action mask row built by its action
parser. -/
structure ArenaModel where
  actionAmount : ℕ
  obsRows : List (List ℚ)
  maskRows : List (List Bool)
deriving DecidableEq, Repr

instance : Inhabited ArenaModel := ⟨{ actionAmount := 0, obsRows := [], maskRows := [] }⟩

/-- Observation width of an arena: the length of its first player's built
observation (the constructor probes exactly this on arena 0,
EnvSet.cpp line 99). -/
def arenaObsWidth (a : ArenaModel) : ℕ := (a.obsRows.headD []).length

/-- Modelled from the spec: `RG_ASSERT` (used by `DimList2::SetFromPtr`,
Lists.h line 112, `RG_ASSERT(count == size[1])`) is defined in a framework
header outside `src/`; per the spec (7) a failed startup assertion is a
fatal configuration error that aborts with a descriptive message.  The abort
is modelled as `Except.error`.  This function performs the per-player
obs/mask row writes of `RLGC::EnvSet::ResetArena` (EnvSet.cpp lines
295-301): each row goes through `SetFromPtr`, whose assertion compares the
row length with the table width. -/
def resetArenaRowChecks (obsSize actionAmount : ℕ) :
    List (List ℚ × List Bool) → Except String Unit
  | [] => Except.ok ()
  | (obsVec, maskVec) :: rest =>
      if obsVec.length = obsSize then
        if maskVec.length = actionAmount then
          resetArenaRowChecks obsSize actionAmount rest
        else Except.error "RG_ASSERT failed in SetFromPtr: action mask width mismatch"
      else Except.error "RG_ASSERT failed in SetFromPtr: obs row width mismatch"

/-- The initial reset of all arenas run by the `EnvSet` constructor
(EnvSet.cpp lines 106-109), which performs the `SetFromPtr` width checks
for every player of every arena. -/
def envSetResetAll (obsSize actionAmount : ℕ) :
    List ArenaModel → Except String Unit
  | [] => Except.ok ()
  | a :: rest =>
      match resetArenaRowChecks obsSize actionAmount (a.obsRows.zip a.maskRows) with
      | Except.error e => Except.error e
      | Except.ok _ => envSetResetAll obsSize actionAmount rest

/-- The `RLGC::EnvSet` constructor (EnvSet.cpp lines 46-111) reduced to its
table-width bookkeeping: probe `obsSize` from arena 0's first built
observation (line 99) and the action amount from arena 0's parser
(line 102), then reset every arena, which row-checks every player's obs row
against `obsSize` and mask row against the action amount.  On success the
probed pair is returned. -/
def envSetConstruct (arenas : List ArenaModel) : Except String (ℕ × ℕ) :=
  let a0 := arenas.headD default
  let obsSize := arenaObsWidth a0
  let actionAmount := a0.actionAmount
  match envSetResetAll obsSize actionAmount arenas with
  | Except.ok _ => Except.ok (obsSize, actionAmount)
  | Except.error e => Except.error e

theorem resetArenaRowChecks_ok_iff (obsSize actionAmount : ℕ)
    (rows : List (List ℚ × List Bool)) :
    resetArenaRowChecks obsSize actionAmount rows = Except.ok () ↔
      ∀ p ∈ rows, p.1.length = obsSize ∧ p.2.length = actionAmount := by
  induction rows with
  | nil => simp [resetArenaRowChecks]
  | cons r rest ih =>
    rcases r with ⟨obsVec, maskVec⟩
    rw [resetArenaRowChecks]
    by_cases h1 : obsVec.length = obsSize
    · by_cases h2 : maskVec.length = actionAmount
      · rw [if_pos h1, if_pos h2, ih]
        constructor
        · intro h p hp
          rcases List.mem_cons.mp hp with rfl | hmem
          · exact ⟨h1, h2⟩
          · exact h p hmem
        · intro h p hp
          exact h p (List.mem_cons_of_mem _ hp)
      · rw [if_pos h1, if_neg h2]
        constructor
        · intro h
          cases h
        · intro h
          exact absurd (h (obsVec, maskVec) (by simp)).2 h2
    · rw [if_neg h1]
      constructor
      · intro h
        cases h
      · intro h
        exact absurd (h (obsVec, maskVec) (by simp)).1 h1

theorem envSetResetAll_ok_iff (obsSize actionAmount : ℕ)
    (arenas : List ArenaModel) :
    envSetResetAll obsSize actionAmount arenas = Except.ok () ↔
      ∀ a ∈ arenas, ∀ p ∈ a.obsRows.zip a.maskRows,
        p.1.length = obsSize ∧ p.2.length = actionAmount := by
  induction arenas with
  | nil => simp [envSetResetAll]
  | cons a rest ih =>
    rw [envSetResetAll]
    cases hr : resetArenaRowChecks obsSize actionAmount (a.obsRows.zip a.maskRows) with
    | error e =>
      constructor
      · intro h
        cases h
      · intro h
        have := (resetArenaRowChecks_ok_iff obsSize actionAmount
          (a.obsRows.zip a.maskRows)).mpr (h a (by simp))
        rw [this] at hr
        cases hr
    | ok u =>
      cases u
      rw [ih]
      constructor
      · intro h b hb
        rcases List.mem_cons.mp hb with rfl | hmem
        · exact (resetArenaRowChecks_ok_iff obsSize actionAmount
            (b.obsRows.zip b.maskRows)).mp hr
        · exact h b hmem
      · intro h b hb
        exact h b (List.mem_cons_of_mem _ hb)

theorem envSetConstruct_eq (arenas : List ArenaModel) :
    envSetConstruct arenas =
      match envSetResetAll (arenaObsWidth (arenas.headD default))
          (arenas.headD default).actionAmount arenas with
      | Except.ok _ => Except.ok (arenaObsWidth (arenas.headD default),
          (arenas.headD default).actionAmount)
      | Except.error e => Except.error e := rfl

/-- C2: given per-arena internally consistent builders (every obs row of an
arena has that arena's width, every mask row has its parser's action count,
at least one player per arena), the `EnvSet` constructor completes exactly
when every arena has the same observation width and action-space size as
arena 0, and aborts during construction (a failed `SetFromPtr` width
assertion in the initial reset, modelled as `Except.error`) whenever some
arena disagrees with arena 0. -/
theorem claim_C2_envset_width_failfast (arenas : List ArenaModel)
    (hne : arenas ≠ [])
    (hplayers : ∀ a ∈ arenas, a.obsRows ≠ [] ∧ a.maskRows ≠ [])
    (hobsU : ∀ a ∈ arenas, ∀ r ∈ a.obsRows, r.length = arenaObsWidth a)
    (hmaskU : ∀ a ∈ arenas, ∀ m ∈ a.maskRows, m.length = a.actionAmount) :
    (envSetConstruct arenas =
        Except.ok (arenaObsWidth (arenas.headD default),
          (arenas.headD default).actionAmount) ↔
      ∀ a ∈ arenas, arenaObsWidth a = arenaObsWidth (arenas.headD default) ∧
        a.actionAmount = (arenas.headD default).actionAmount) ∧
    ((∃ a ∈ arenas, arenaObsWidth a ≠ arenaObsWidth (arenas.headD default) ∨
        a.actionAmount ≠ (arenas.headD default).actionAmount) →
      ∃ msg, envSetConstruct arenas = Except.error msg) := by
  have hcond : ∀ a ∈ arenas,
      ((∀ p ∈ a.obsRows.zip a.maskRows,
        p.1.length = arenaObsWidth (arenas.headD default) ∧
        p.2.length = (arenas.headD default).actionAmount) ↔
       (arenaObsWidth a = arenaObsWidth (arenas.headD default) ∧
        a.actionAmount = (arenas.headD default).actionAmount)) := by
    intro a ha
    constructor
    · intro h
      rcases hplayers a ha with ⟨ho, hm⟩
      rcases List.exists_cons_of_ne_nil ho with ⟨o, otl, hoe⟩
      rcases List.exists_cons_of_ne_nil hm with ⟨m, mtl, hme⟩
      have hpmem : (o, m) ∈ a.obsRows.zip a.maskRows := by
        rw [hoe, hme, List.zip_cons_cons]
        simp
      have hwid := h (o, m) hpmem
      have hol : o.length = arenaObsWidth a := hobsU a ha o (by rw [hoe]; simp)
      have hml : m.length = a.actionAmount := hmaskU a ha m (by rw [hme]; simp)
      exact ⟨by rw [← hol, hwid.1], by rw [← hml, hwid.2]⟩
    · intro h p hp
      rcases p with ⟨o, m⟩
      have hom := List.of_mem_zip hp
      exact ⟨by rw [hobsU a ha o hom.1, h.1], by rw [hmaskU a ha m hom.2, h.2]⟩
  have hiff : envSetResetAll (arenaObsWidth (arenas.headD default))
      (arenas.headD default).actionAmount arenas = Except.ok () ↔
      (∀ a ∈ arenas, arenaObsWidth a = arenaObsWidth (arenas.headD default) ∧
        a.actionAmount = (arenas.headD default).actionAmount) := by
    rw [envSetResetAll_ok_iff]
    constructor
    · intro h a ha
      exact (hcond a ha).mp (h a ha)
    · intro h a ha
      exact (hcond a ha).mpr (h a ha)
  constructor
  · cases hr : envSetResetAll (arenaObsWidth (arenas.headD default))
        (arenas.headD default).actionAmount arenas with
    | ok u =>
      cases u
      constructor
      · intro _
        exact hiff.mp hr
      · intro _
        rw [envSetConstruct_eq, hr]
    | error e =>
      constructor
      · intro hctr
        rw [envSetConstruct_eq, hr] at hctr
        cases hctr
      · intro hall
        have := hiff.mpr hall
        rw [hr] at this
        cases this
  · intro hex
    have hnot : ¬ (∀ a ∈ arenas,
        arenaObsWidth a = arenaObsWidth (arenas.headD default) ∧
        a.actionAmount = (arenas.headD default).actionAmount) := by
      rcases hex with ⟨a, ha, hor⟩
      intro hall
      rcases hor with h | h
      · exact h (hall a ha).1
      · exact h (hall a ha).2
    cases hr : envSetResetAll (arenaObsWidth (arenas.headD default))
        (arenas.headD default).actionAmount arenas with
    | ok u =>
      cases u
      exact absurd (hiff.mp hr) hnot
    | error e =>
      refine ⟨e, ?_⟩
      rw [envSetConstruct_eq, hr]

/-- Two-arena configuration whose second arena builds observation rows of a
different width than arena 0. -/
def mismatchedArenas : List ArenaModel :=
  [{ actionAmount := 2, obsRows := [[1, 2]], maskRows := [[true, true]] },
   { actionAmount := 2, obsRows := [[3]], maskRows := [[true, true]] }]

theorem claim_C2_envset_width_failfast_witness :
    (mismatchedArenas ≠ [] ∧
     (∀ a ∈ mismatchedArenas, a.obsRows ≠ [] ∧ a.maskRows ≠ []) ∧
     (∀ a ∈ mismatchedArenas, ∀ r ∈ a.obsRows, r.length = arenaObsWidth a) ∧
     (∀ a ∈ mismatchedArenas, ∀ m ∈ a.maskRows, m.length = a.actionAmount)) ∧
    ((envSetConstruct mismatchedArenas =
        Except.ok (arenaObsWidth (mismatchedArenas.headD default),
          (mismatchedArenas.headD default).actionAmount) ↔
      ∀ a ∈ mismatchedArenas,
        arenaObsWidth a = arenaObsWidth (mismatchedArenas.headD default) ∧
        a.actionAmount = (mismatchedArenas.headD default).actionAmount) ∧
    ((∃ a ∈ mismatchedArenas,
        arenaObsWidth a ≠ arenaObsWidth (mismatchedArenas.headD default) ∨
        a.actionAmount ≠ (mismatchedArenas.headD default).actionAmount) →
      ∃ msg, envSetConstruct mismatchedArenas = Except.error msg)) :=
  ⟨⟨by decide, by decide, by decide, by decide⟩,
    claim_C2_envset_width_failfast mismatchedArenas (by decide) (by decide)
      (by decide) (by decide)⟩

/-- The `try` block around the minibatch loop of `GGL::PPOLearner::Learn`
(PPOLearner.cpp lines 504-513): minibatches of one batch run in order
(`fnRunMinibatch` per `miniBatchSize` slice) until one raises.  Each entry of
the list tells whether that minibatch completes (`true`) or raises
(`false`).  The result counts completed minibatches; `Except.error` is the
exception propagating out of the loop to the `catch` (lines 514-518). -/
def runMinibatchesTry : List Bool → Except ℕ ℕ
  | [] => Except.ok 0
  | ok :: rest =>
      if ok then
        match runMinibatchesTry rest with
        | Except.ok n => Except.ok (n + 1)
        | Except.error n => Except.error (n + 1)
      else Except.error 0

/-- Completed minibatches of one batch, whether or not an exception ended the
batch early. -/
def completedMinibatches (mbs : List Bool) : ℕ :=
  match runMinibatchesTry mbs with
  | Except.ok n => n
  | Except.error n => n

/-- The batch loop of `GGL::PPOLearner::Learn` (PPOLearner.cpp
lines 335-530): per batch, the `try` block runs the whole minibatch loop;
the `catch` logs and `continue`s to the next batch, which also skips that
batch's gradient clipping and `StepOptims` (lines 520-529).  Output per
batch: completed minibatch count and whether the optimizer step ran. -/
def learnBatchLoop : List (List Bool) → List (ℕ × Bool)
  | [] => []
  | mbs :: rest =>
      match runMinibatchesTry mbs with
      | Except.ok n => (n, true) :: learnBatchLoop rest
      | Except.error n => (n, false) :: learnBatchLoop rest

theorem runMinibatchesTry_spec (mbs : List Bool) :
    runMinibatchesTry mbs =
      if mbs.all id then Except.ok (mbs.takeWhile id).length
      else Except.error (mbs.takeWhile id).length := by
  induction mbs with
  | nil => simp [runMinibatchesTry]
  | cons ok rest ih =>
    cases ok with
    | true =>
      rw [runMinibatchesTry, if_pos rfl, ih]
      by_cases hall : rest.all id
      · rw [if_pos hall, if_pos (by simp [hall])]
        simp [List.takeWhile_cons]
      · rw [if_neg hall, if_neg (by simp [hall])]
        simp [List.takeWhile_cons]
    | false =>
      rw [runMinibatchesTry, if_neg (by simp)]
      rw [if_neg (by simp)]
      simp [List.takeWhile_cons]

/-- C4 counterexample: in a batch whose minibatches behave
`[completes, raises, completes]`, the code completes only the first
minibatch — the non-failing third minibatch of the same batch is NOT
processed, contradicting the claim that only the failing minibatch is
skipped. -/
theorem claim_C4_counterexample :
    ¬ (completedMinibatches [true, false, true] =
        (([true, false, true] : List Bool).filter id).length) := by
  decide

/-- C4 (amended): an exception in one minibatch is caught (the loop never
aborts) but ends that whole batch: exactly the minibatches before the first
failing one complete, the batch's optimizer step runs only when no minibatch
fails, and training always continues with the next batch of the same
epoch. -/
theorem claim_C4_minibatch_exception_skips_batch (batches : List (List Bool)) :
    learnBatchLoop batches =
      batches.map (fun mbs => ((mbs.takeWhile id).length, mbs.all id)) := by
  induction batches with
  | nil => rfl
  | cons mbs rest ih =>
    rw [learnBatchLoop, runMinibatchesTry_spec, List.map_cons, ← ih]
    by_cases hall : mbs.all id
    · rw [if_pos hall, hall]
    · rw [if_neg hall]
      have hfalse : mbs.all id = false := by
        rcases Bool.eq_false_or_eq_true (mbs.all id) with h | h
        · exact absurd h hall
        · exact h
      rw [hfalse]

/-- The per-agent `Trajectory` struct of `GGL::Learner::Start`
(Learner.cpp lines 504-547): flattened per-step lists. -/
structure Trajectory where
  states : List ℚ
  nextStates : List ℚ
  rewards : List ℚ
  logProbs : List ℚ
  actionMasks : List Bool
  terminals : List ℤ
  actions : List ℤ
deriving DecidableEq, Repr

/-- `Trajectory::Clear` (Learner.cpp lines 524-532): clears every list. -/
def Trajectory.Clear (_t : Trajectory) : Trajectory :=
  { states := [], nextStates := [], rewards := [], logProbs := []
    actionMasks := [], terminals := [], actions := [] }

/-- `Trajectory::Append` (Learner.cpp lines 534-542): concatenates every
list of `other` onto `t`. -/
def Trajectory.Append (t other : Trajectory) : Trajectory :=
  { states := t.states ++ other.states
    nextStates := t.nextStates ++ other.nextStates
    rewards := t.rewards ++ other.rewards
    logProbs := t.logProbs ++ other.logProbs
    actionMasks := t.actionMasks ++ other.actionMasks
    terminals := t.terminals ++ other.terminals
    actions := t.actions ++ other.actions }

/-- `Trajectory::Length` (Learner.cpp lines 544-546). -/
def Trajectory.Length (t : Trajectory) : ℕ := t.actions.length

/-- One collection-loop tick for one (current-version) agent in
`GGL::Learner::Start`: the phase-1 obs/mask copy (lines 704-711), the
post-phase-2 action/reward/logProb pushes (lines 824-830), and the
terminal handling block (lines 844-863): a zero terminal flag is promoted
to a synthetic truncation when the trajectory has reached
`maxEpisodeLength` (the spec gives `TRUNCATED = 2` for the `int8_t` tag,
whose enum declaration lives outside `src/`); on a non-zero terminal the
trajectory (plus the bootstrap next-obs row if truncated) is appended onto
the combined rollout and cleared.  Returns the agent trajectory, the
combined rollout, and whether the trajectory was appended this tick. -/
def collectTick (maxEpisodeLength : ℕ) (obsRow : List ℚ) (maskRow : List Bool)
    (action : ℤ) (reward logProb : ℚ) (terminalFlag : ℤ) (nextObsRow : List ℚ)
    (traj combined : Trajectory) : Trajectory × Trajectory × Bool :=
  let t1 : Trajectory := { traj with
    states := traj.states ++ obsRow
    actionMasks := traj.actionMasks ++ maskRow }
  let t2 : Trajectory := { t1 with
    actions := t1.actions ++ [action]
    rewards := t1.rewards ++ [reward]
    logProbs := t1.logProbs ++ [logProb] }
  let terminalType : ℤ :=
    if terminalFlag = 0 ∧ maxEpisodeLength ≤ t2.Length then 2 else terminalFlag
  let t3 : Trajectory := { t2 with terminals := t2.terminals ++ [terminalType] }
  if terminalType ≠ 0 then
    let t4 : Trajectory :=
      if terminalType = 2 then { t3 with nextStates := t3.nextStates ++ nextObsRow }
      else t3
    (t4.Clear, combined.Append t4, true)
  else (t3, combined, false)

/-- C6: in each tick an agent's trajectory is appended into the combined
rollout at most once — exactly when its terminal flag is non-zero or its
length (including this tick) has reached the configured max episode length —
the whole trajectory (this tick included) is transferred, and immediately
after being appended the agent's trajectory is empty. -/
theorem claim_C6_trajectory_merge (maxEpisodeLength : ℕ) (obsRow : List ℚ)
    (maskRow : List Bool) (action : ℤ) (reward logProb : ℚ) (terminalFlag : ℤ)
    (nextObsRow : List ℚ) (traj combined : Trajectory) :
    ((collectTick maxEpisodeLength obsRow maskRow action reward logProb
        terminalFlag nextObsRow traj combined).2.2 = true ↔
      (terminalFlag ≠ 0 ∨ maxEpisodeLength ≤ traj.Length + 1)) ∧
    ((collectTick maxEpisodeLength obsRow maskRow action reward logProb
        terminalFlag nextObsRow traj combined).2.2 = true →
      ((collectTick maxEpisodeLength obsRow maskRow action reward logProb
          terminalFlag nextObsRow traj combined).1.Length = 0 ∧
       (collectTick maxEpisodeLength obsRow maskRow action reward logProb
          terminalFlag nextObsRow traj combined).1.states = [] ∧
       (collectTick maxEpisodeLength obsRow maskRow action reward logProb
          terminalFlag nextObsRow traj combined).1.terminals = [] ∧
       (collectTick maxEpisodeLength obsRow maskRow action reward logProb
          terminalFlag nextObsRow traj combined).2.1.Length =
         combined.Length + (traj.Length + 1))) ∧
    ((collectTick maxEpisodeLength obsRow maskRow action reward logProb
        terminalFlag nextObsRow traj combined).2.2 = false →
      ((collectTick maxEpisodeLength obsRow maskRow action reward logProb
          terminalFlag nextObsRow traj combined).2.1 = combined ∧
       (collectTick maxEpisodeLength obsRow maskRow action reward logProb
          terminalFlag nextObsRow traj combined).1.Length = traj.Length + 1)) := by
  rw [collectTick]
  dsimp only
  simp only [Trajectory.Length, List.length_append, List.length_cons,
    List.length_nil]
  by_cases h0 : terminalFlag = 0
  · by_cases hlen : maxEpisodeLength ≤ traj.actions.length + 1
    · rw [if_pos (show terminalFlag = 0 ∧
        maxEpisodeLength ≤ traj.actions.length + 1 from ⟨h0, hlen⟩)]
      rw [if_pos (show (2 : ℤ) ≠ 0 from by norm_num), if_pos rfl]
      refine ⟨?_, ?_, ?_⟩
      · simp [hlen]
      · intro _
        refine ⟨rfl, rfl, rfl, ?_⟩
        simp [Trajectory.Append]
      · intro hcon
        cases hcon
    · rw [if_neg (show ¬ (terminalFlag = 0 ∧
        maxEpisodeLength ≤ traj.actions.length + 1) from fun hc => hlen hc.2)]
      rw [h0]
      rw [if_neg (show ¬ ((0 : ℤ) ≠ 0) from by norm_num)]
      refine ⟨?_, ?_, ?_⟩
      · constructor
        · intro hcon
          cases hcon
        · intro hor
          rcases hor with h | h
          · exact absurd rfl h
          · exact absurd h hlen
      · intro hcon
        cases hcon
      · intro _
        exact ⟨rfl, by simp⟩
  · rw [if_neg (show ¬ (terminalFlag = 0 ∧
      maxEpisodeLength ≤ traj.actions.length + 1) from fun hc => h0 hc.1)]
    rw [if_pos h0]
    refine ⟨?_, ?_, ?_⟩
    · simp [h0]
    · intro _
      refine ⟨?_, ?_, ?_, ?_⟩
      · split <;> rfl
      · split <;> rfl
      · split <;> rfl
      · split <;> simp [Trajectory.Append]
    · intro hcon
      cases hcon
